import Mathlib

/-!
Shallow embedding of `src/src/wallet/utils.rs` (wallet sync driver of a
cardano command-line wallet).

The driver `update_wallet_state_with_utxos` walks transactions from the
wallet's cursor to the blockchain tip.  For each transaction it
 * appends a `Checkpoint` log record when the transaction's block date
   enters a new epoch (taking the log lock and opening a writer first),
 * calls `forward_with_txins` over the inputs and appends the emitted
   records, then calls `forward_with_utxos` over the outputs and appends
   those records — each batch again under a freshly taken log lock.

The external collaborators (the `state` module's forward functions, the
log store, the blockchain iterator, the terminal) are not part of the
source file; they are abstracted as parameters, or modelled from the
spec where a claim needs their behaviour (each such definition is marked
`Modelled from the spec:`).  The driver itself is translated faithfully:
the event trace records every lock acquisition, writer/reader opening
and record append in the order the source performs them.
-/

/-- Block date of the `cardano` crate: either the genesis/boundary block of
an epoch or a normal slot inside an epoch. -/
inductive BlockDate where
  | genesis (epoch : Nat)
  | normal (epoch : Nat) (slot : Nat)
deriving DecidableEq, Repr

/-- `BlockDate::get_epochid`: the epoch of a block date. -/
def BlockDate.get_epochid : BlockDate → Nat
  | .genesis e => e
  | .normal e _ => e

/-- Slots in one epoch (constant of the chain parameters). -/
def slotsPerEpoch : Nat := 21600

/-- Modelled from the spec: the absolute position of a block date on the
chain, used only to express `BlockDate` subtraction ("the number of blocks
between" two dates); the `Sub` instance of the `cardano` crate is not part
of the source under verification. -/
def BlockDate.slot_number : BlockDate → Nat
  | .genesis e => e * slotsPerEpoch
  | .normal e s => e * slotsPerEpoch + s + 1

/-- Modelled from the spec: `blockchain_tip.date - from_date`, the number of
blocks between the cursor's date and the tip's date. -/
def blockDateSub (a b : BlockDate) : Nat :=
  a.slot_number - b.slot_number

/-- `StatePtr`: the synchronization cursor — last known block hash and an
optional block date.  Hashes are abstracted as `Nat`. -/
structure StatePtr where
  latest_known_hash : Nat
  latest_addr : Option BlockDate
deriving DecidableEq, Repr

/-- Transaction input (`TxoPointer`): the output it consumes, by
transaction id and index. -/
structure TxIn where
  id : Nat
  index : Nat
deriving DecidableEq, Repr

/-- Transaction output: destination address and value. -/
structure TxOut (A : Type) where
  address : A
  value : Nat
deriving DecidableEq, Repr

/-- The part of a `TxAux` the driver uses: `tx.id()`, `tx.inputs`,
`tx.outputs`. -/
structure Tx (A : Type) where
  id : Nat
  inputs : List TxIn
  outputs : List (TxOut A)
deriving DecidableEq, Repr

/-- `UTxO` value object as built by the driver for each candidate output.
`index_in_transaction` is a `u32` in the source, hence the `% 2 ^ 32`
wrap-around where it is constructed. -/
structure UTxO (A : Type) where
  transaction_id : Nat
  index_in_transaction : Nat
  credited_address : A
  credited_value : Nat
deriving DecidableEq, Repr

/-- `log::Log`: the three wallet log record kinds. -/
inductive Log (A : Type) where
  | checkpoint (ptr : StatePtr)
  | receivedFund (ptr : StatePtr) (utxo : UTxO A)
  | spentFund (ptr : StatePtr) (utxo : UTxO A)
deriving DecidableEq, Repr

/-- Whether a log record is a `Checkpoint`. -/
def Log.isCheckpoint : Log A → Bool
  | .checkpoint _ => true
  | _ => false

/-- Observable actions the module performs against the log store, in
program order: taking the log lock (`lock_wallet_log`), opening a writer
(`LogWriter::open`), opening a reader (`LogReader::open`), appending one
record (`writer.append`). -/
inductive Event (A : Type) where
  | lock
  | openWriter
  | openReader
  | append (r : Log A)
deriving DecidableEq, Repr

/-- The record appended by an event, if any. -/
def Event.appendedLog : Event A → Option (Log A)
  | .append r => some r
  | _ => none

/-- The log records appended along a trace, in order. -/
def appendsOf (t : List (Event A)) : List (Log A) :=
  t.filterMap Event.appendedLog

/-- The `Checkpoint` records appended along a trace, in order. -/
def checkpointsOf (t : List (Event A)) : List (Log A) :=
  (appendsOf t).filter Log.isCheckpoint

/-- The synchronization state's two forward operations, as the driver sees
them: `forward_with_txins` over `(ptr, input)` pairs and
`forward_with_utxos` over `(ptr, candidate utxo)` pairs, each returning the
updated state and the ordered list of emitted records. -/
structure Forward (σ A : Type) where
  txins : σ → List (StatePtr × TxIn) → σ × List (Log A)
  utxos : σ → List (StatePtr × UTxO A) → σ × List (Log A)

/-- Spec §4.2: `forward_with_txins` emits only `SpentFund` records and
`forward_with_utxos` emits only `ReceivedFund` records — in particular,
neither ever emits a `Checkpoint`. -/
def NoCheckpointForward (F : Forward σ A) : Prop :=
  (∀ s args r, r ∈ (F.txins s args).2 → r.isCheckpoint = false) ∧
  (∀ s args r, r ∈ (F.utxos s args).2 → r.isCheckpoint = false)

/-- The candidate UTxO entries the driver builds from a transaction's
outputs (`tx.outputs.into_iter().enumerate().map(...)`, lines 66–77):
position as `u32` index, the output's address and value, the enclosing
transaction's id, each paired with the transaction's `StatePtr`. -/
def mkUtxoCandidates (ptr : StatePtr) (tx : Tx A) : List (StatePtr × UTxO A) :=
  tx.outputs.enum.map (fun p =>
    ( ptr
    , { transaction_id := tx.id
      , index_in_transaction := p.1 % 2 ^ 32
      , credited_address := p.2.address
      , credited_value := p.2.value } ))

/-- The checkpoint branch of the sync loop (lines 43–50): when the
transaction's `StatePtr` carries a block date whose epoch differs from the
last seen block date's epoch, take the log lock, open a writer and append
`Checkpoint(ptr)`; otherwise do nothing. -/
def checkpointEvents (last : BlockDate) (ptr : StatePtr) : List (Event A) :=
  match ptr.latest_addr with
  | none => []
  | some addr =>
    if last.get_epochid ≠ addr.get_epochid then
      [Event.lock, Event.openWriter, Event.append (Log.checkpoint ptr)]
    else []

/-- Line 52: the last seen block date advances to the transaction's block
date when it has one, and is left unchanged otherwise. -/
def nextLastDate (last : BlockDate) (ptr : StatePtr) : BlockDate :=
  ptr.latest_addr.getD last

/-- Result of one loop iteration / of the whole loop: final state of the
forward collaborator, last seen block date, and the event trace. -/
structure StepOut (σ A : Type) where
  state : σ
  last : BlockDate
  events : List (Event A)
deriving Repr

/-- One iteration of the sync loop (lines 43–82) for transaction `tx` at
pointer `ptr`: the checkpoint branch, then `forward_with_txins` over the
inputs with its records appended under a fresh lock and writer, then
`forward_with_utxos` over the candidate outputs likewise.  The `unwrap`s of
the source abort the process on collaborator failure; the embedding covers
the non-aborting executions. -/
def processTxEvents (F : Forward σ A) (s : σ) (last : BlockDate)
    (ptr : StatePtr) (tx : Tx A) : StepOut σ A :=
  let r1 := F.txins s (tx.inputs.map (fun txin => (ptr, txin)))
  let r2 := F.utxos r1.1 (mkUtxoCandidates ptr tx)
  { state := r2.1
  , last := nextLastDate last ptr
  , events :=
      checkpointEvents last ptr
        ++ ([Event.lock, Event.openWriter] ++ r1.2.map Event.append)
        ++ ([Event.lock, Event.openWriter] ++ r2.2.map Event.append) }

/-- The sync loop of `update_wallet_state_with_utxos` over the sequence of
`(StatePtr, transaction)` pairs produced by the blockchain iterator. -/
def syncEvents (F : Forward σ A) (s : σ) (last : BlockDate) :
    List (StatePtr × Tx A) → StepOut σ A
  | [] => { state := s, last := last, events := [] }
  | (ptr, tx) :: rest =>
    let o1 := processTxEvents F s last ptr tx
    let o2 := syncEvents F o1.state o1.last rest
    { state := o2.state, last := o2.last, events := o1.events ++ o2.events }

/-- A block as seen by the transaction iterator: its `StatePtr` and its
transactions. -/
structure Block (A : Type) where
  ptr : StatePtr
  txs : List (Tx A)

/-- Modelled from the spec: `TransactionIterator` (not part of the source
file) yields every transaction of every block with that block's `StatePtr`,
in chain order, and advances the progress bar once per consumed block; the
second component counts the advances. -/
def iterTransactions : List (Block A) → List (StatePtr × Tx A) × Nat
  | [] => ([], 0)
  | b :: rest =>
    let r := iterTransactions rest
    (b.txs.map (fun tx => (b.ptr, tx)) ++ r.1, r.2 + 1)

/-- Result of a whole sync session: the progress bar's total length and
number of advances, plus the loop's outcome. -/
structure SyncRun (σ A : Type) where
  progressTotal : Nat
  progressTicks : Nat
  state : σ
  last : BlockDate
  events : List (Event A)

/-- `update_wallet_state_with_utxos` (lines 19–84): compute
`from_date = from_ptr.latest_addr.unwrap_or(Genesis(0))`, size the progress
bar as `blockchain_tip.date - from_date`, then run the sync loop from
`from_date` over the iterated transactions. -/
def update_wallet_state_with_utxos (F : Forward σ A) (s : σ)
    (fromPtr : StatePtr) (tipDate : BlockDate) (blocks : List (Block A)) :
    SyncRun σ A :=
  let from_date := fromPtr.latest_addr.getD (BlockDate.genesis 0)
  let num_blocks := blockDateSub tipDate from_date
  let it := iterTransactions blocks
  let o := syncEvents F s from_date it.1
  { progressTotal := num_blocks
  , progressTicks := it.2
  , state := o.state
  , last := o.last
  , events := o.events }

/-- Reading a wallet log through the panic-on-error `filter_map` of the
source (lines 97–104 and 192–199): raw records are pulled lazily; the
records decoded before the first failure are delivered, and the first
decode failure aborts the read (`panic!`), so nothing after it is ever
pulled.  Returns the delivered records and the aborting error, if any. -/
def readUntilError : List (Except E (Log A)) → List (Log A) × Option E
  | [] => ([], none)
  | .error e :: _ => ([], some e)
  | .ok v :: rest =>
    let r := readUntilError rest
    (v :: r.1, r.2)

/-- Outcome of `display_wallet_state_logs` (lines 86–134): the lock/open
events, the records it got to render, and the decode failure that aborted
the read, if any. -/
structure DisplayRun (A E : Type) where
  events : List (Event A)
  displayed : List (Log A)
  panic : Option E

/-- `display_wallet_state_logs`: take the log lock, open a reader, then
iterate the records, panicking on the first decode failure. -/
def display_wallet_state_logs (raw : List (Except E (Log A))) :
    DisplayRun A E :=
  let r := readUntilError raw
  { events := [Event.lock, Event.openReader]
  , displayed := r.1
  , panic := r.2 }

/-- Outcome of `update_wallet_state_with_logs` (lines 185–201): the
lock/open events, the state after replaying the delivered records, and the
decode failure that aborted the read, if any. -/
structure ReplayRun (σ A E : Type) where
  events : List (Event A)
  state : σ
  panic : Option E

/-- `update_wallet_state_with_logs`: take the log lock, open a reader and
feed the decoded records to the state's `update_with_logs` (abstracted as
the fold of `upd`), panicking on the first decode failure. -/
def update_wallet_state_with_logs (upd : σ → Log A → σ) (s : σ)
    (raw : List (Except E (Log A))) : ReplayRun σ A E :=
  let r := readUntilError raw
  { events := [Event.lock, Event.openReader]
  , state := r.1.foldl upd s
  , panic := r.2 }

/-- The variants of the wallet `Error` enum the source matches on, plus a
catch-all for every other variant. -/
inductive WalletError where
  | cannotRetrievePrivateKeyInvalidPassword
  | cannotRetrievePrivateKey (msg : String)
  | walletLogAlreadyLocked (pid : Nat)
  | other (msg : String)
deriving DecidableEq, Repr

/-- Outcome of `lock_wallet_log` (lines 252–264): the lock, or the fatal
"already locked by <pid>" report followed by `process::exit(1)`, or the
"impossible happened" panic on any other error. -/
inductive LockOutcome (L : Type) where
  | acquired (lock : L)
  | exitAlreadyLocked (pid : Nat)
  | panicUnexpected (err : WalletError)
deriving DecidableEq, Repr

/-- `lock_wallet_log`: match on `wallet.log()`. -/
def lock_wallet_log : Except WalletError L → LockOutcome L
  | .error (.walletLogAlreadyLocked pid) => .exitAlreadyLocked pid
  | .error e => .panicUnexpected e
  | .ok lock => .acquired lock

/-- The process exit status the outcome leads to, when it is a
`process::exit` (the panic path aborts, it does not call `exit`). -/
def LockOutcome.exitCode : LockOutcome L → Option Nat
  | .exitAlreadyLocked _ => some 1
  | _ => none

/-- The holder pid reported in the "already locked" message, if the outcome
is the lock-contention report. -/
def LockOutcome.reportedHolder : LockOutcome L → Option Nat
  | .exitAlreadyLocked pid => some pid
  | _ => none

/-- The user-facing message of the invalid-password branch (line 212). -/
def invalidPasswordMessage : String := "Invalid wallet spending password"

/-- The user-facing message of the corrupt-stored-key branch
(line 216). -/
def corruptKeyMessage (msg : String) : String :=
  "Cannot retrieve the private key of the wallet: " ++ msg

/-- Outcome of loading a lookup structure (lines 203–250): the structure,
or `process::exit(1)` after the invalid-password message, or
`process::exit(1)` after the corrupt-key message, or the "impossible
happened" panic on any other error. -/
inductive LoadOutcome (B : Type) where
  | ok (b : B)
  | exitInvalidPassword
  | exitCorruptKey (msg : String)
  | panicUnexpected (err : WalletError)
deriving DecidableEq, Repr

/-- The user-facing error message of a load outcome, if any. -/
def LoadOutcome.message : LoadOutcome B → Option String
  | .exitInvalidPassword => some invalidPasswordMessage
  | .exitCorruptKey m => some (corruptKeyMessage m)
  | _ => none

/-- The process exit status a load outcome leads to, when it is a
`process::exit`. -/
def LoadOutcome.exitCode : LoadOutcome B → Option Nat
  | .exitInvalidPassword => some 1
  | .exitCorruptKey _ => some 1
  | _ => none

/-- `load_bip44_lookup_structure`: match on `wallet.get_wallet_bip44`;
`mk` abstracts `SequentialBip44Lookup::new`. -/
def load_bip44_lookup_structure (mk : W → B) :
    Except WalletError W → LoadOutcome B
  | .error .cannotRetrievePrivateKeyInvalidPassword => .exitInvalidPassword
  | .error (.cannotRetrievePrivateKey m) => .exitCorruptKey m
  | .error e => .panicUnexpected e
  | .ok w => .ok (mk w)

/-- `load_randomindex_lookup_structure`: match on `wallet.get_wallet_rindex`;
`mk` abstracts `RandomIndexLookup::from`. -/
def load_randomindex_lookup_structure (mk : W → B) :
    Except WalletError W → LoadOutcome B
  | .error .cannotRetrievePrivateKeyInvalidPassword => .exitInvalidPassword
  | .error (.cannotRetrievePrivateKey m) => .exitCorruptKey m
  | .error e => .panicUnexpected e
  | .ok w => .ok (mk w)

/-- Whether every writer/reader opening in a trace happens right after a
lock acquisition; `prev` records whether the previous event was taking the
lock. -/
def opensLockedAux : Bool → List (Event A) → Bool
  | _, [] => true
  | _, Event.lock :: rest => opensLockedAux true rest
  | prev, Event.openWriter :: rest => prev && opensLockedAux false rest
  | prev, Event.openReader :: rest => prev && opensLockedAux false rest
  | _, Event.append _ :: rest => opensLockedAux false rest

/-- A trace respects the locking discipline when every `openWriter` and
`openReader` event is immediately preceded by a `lock` event. -/
def opensLocked (t : List (Event A)) : Bool :=
  opensLockedAux false t

/-- A concrete forward collaborator used to exercise the driver: every
input is treated as spending a zero-value entry and every candidate output
as owned. -/
def demoForward : Forward Unit Nat where
  txins := fun s args =>
    (s, args.map (fun pa =>
      Log.spentFund pa.1
        { transaction_id := pa.2.id
        , index_in_transaction := pa.2.index
        , credited_address := 0
        , credited_value := 0 }))
  utxos := fun s args =>
    (s, args.map (fun pa => Log.receivedFund pa.1 pa.2))

/-! ### Helper lemmas -/

theorem iterTransactions_ticks (blocks : List (Block A)) :
    (iterTransactions blocks).2 = blocks.length := by
  induction blocks with
  | nil => rfl
  | cons b rest ih => simp [iterTransactions, ih]

theorem readUntilError_stops_at_first_error (pre : List (Log A)) (e : E)
    (post : List (Except E (Log A))) :
    readUntilError (pre.map Except.ok ++ Except.error e :: post) = (pre, some e) := by
  induction pre with
  | nil => rfl
  | cons v vs ih => simp [readUntilError, ih]

theorem invalidPasswordMessage_ne_corruptKeyMessage (m : String) :
    invalidPasswordMessage ≠ corruptKeyMessage m := by
  intro h
  have h2 := congrArg String.length h
  rw [invalidPasswordMessage, corruptKeyMessage, String.length_append] at h2
  rw [show ("Invalid wallet spending password").length = 32 from rfl] at h2
  rw [show ("Cannot retrieve the private key of the wallet: ").length = 47 from rfl] at h2
  omega

/-! ### Claim theorems -/

/-- C5: lock contention on the wallet log is reported as a distinguishable
"already locked" condition carrying the holder's identity and leads to
`process::exit(1)` with no retry, while any other error from the wallet's
`log()` is treated as an unexpected fault (a panic), distinct from lock
contention and carrying no holder identity. -/
theorem lock_contention_fatal (L : Type) (pid : Nat) (e : WalletError)
    (he : ∀ q, e ≠ WalletError.walletLogAlreadyLocked q) :
    lock_wallet_log (Except.error (WalletError.walletLogAlreadyLocked pid) :
        Except WalletError L) = LockOutcome.exitAlreadyLocked pid
    ∧ (LockOutcome.exitAlreadyLocked pid : LockOutcome L).reportedHolder = some pid
    ∧ (LockOutcome.exitAlreadyLocked pid : LockOutcome L).exitCode = some 1
    ∧ lock_wallet_log (Except.error e : Except WalletError L)
        = LockOutcome.panicUnexpected e
    ∧ (LockOutcome.panicUnexpected e : LockOutcome L)
        ≠ LockOutcome.exitAlreadyLocked pid
    ∧ (LockOutcome.panicUnexpected e : LockOutcome L).reportedHolder = none := by
  refine ⟨rfl, rfl, rfl, ?_, by simp, rfl⟩
  cases e with
  | walletLogAlreadyLocked q => exact absurd rfl (he q)
  | cannotRetrievePrivateKeyInvalidPassword => rfl
  | cannotRetrievePrivateKey m => rfl
  | other m => rfl

theorem lock_contention_fatal_witness :
    lock_wallet_log (Except.error (WalletError.walletLogAlreadyLocked 7) :
        Except WalletError Unit) = LockOutcome.exitAlreadyLocked 7
    ∧ (LockOutcome.exitAlreadyLocked 7 : LockOutcome Unit).reportedHolder = some 7
    ∧ (LockOutcome.exitAlreadyLocked 7 : LockOutcome Unit).exitCode = some 1
    ∧ lock_wallet_log (Except.error (WalletError.other "io") : Except WalletError Unit)
        = LockOutcome.panicUnexpected (WalletError.other "io")
    ∧ (LockOutcome.panicUnexpected (WalletError.other "io") : LockOutcome Unit)
        ≠ LockOutcome.exitAlreadyLocked 7
    ∧ (LockOutcome.panicUnexpected (WalletError.other "io") :
        LockOutcome Unit).reportedHolder = none :=
  lock_contention_fatal Unit 7 (WalletError.other "io") (by simp)

/-- C6: a decode failure on any record is fatal for the whole wallet-log
read: both the log display and the log replay deliver exactly the records
before the first failing record, then abort with that failure — no record
is skipped over to continue with later ones. -/
theorem decode_failure_halts_read (upd : σ → Log A → σ) (s : σ)
    (pre : List (Log A)) (e : E) (post : List (Except E (Log A))) :
    (display_wallet_state_logs (pre.map Except.ok ++ Except.error e :: post)).displayed = pre
    ∧ (display_wallet_state_logs (pre.map Except.ok ++ Except.error e :: post)).panic = some e
    ∧ (update_wallet_state_with_logs upd s
        (pre.map Except.ok ++ Except.error e :: post)).state = pre.foldl upd s
    ∧ (update_wallet_state_with_logs upd s
        (pre.map Except.ok ++ Except.error e :: post)).panic = some e := by
  refine ⟨?_, ?_, ?_, ?_⟩ <;>
    simp [display_wallet_state_logs, update_wallet_state_with_logs,
      readUntilError_stops_at_first_error]

/-- C7: a wrong wallet password and a corrupt stored private key surface as
two distinguishable user-facing messages in both lookup loaders, each
leading to `process::exit(1)`, while any other error from
`get_wallet_bip44` / `get_wallet_rindex` is an unexpected fault (a panic),
distinct from both and with no exit status or user-facing message. -/
theorem credential_failures_distinguished (W B W2 B2 : Type)
    (mk : W → B) (mk2 : W2 → B2) (m : String) (e : WalletError)
    (he1 : e ≠ WalletError.cannotRetrievePrivateKeyInvalidPassword)
    (he2 : ∀ m2, e ≠ WalletError.cannotRetrievePrivateKey m2) :
    load_bip44_lookup_structure mk
        (Except.error WalletError.cannotRetrievePrivateKeyInvalidPassword)
        = LoadOutcome.exitInvalidPassword
    ∧ load_bip44_lookup_structure mk
        (Except.error (WalletError.cannotRetrievePrivateKey m))
        = LoadOutcome.exitCorruptKey m
    ∧ load_randomindex_lookup_structure mk2
        (Except.error WalletError.cannotRetrievePrivateKeyInvalidPassword)
        = LoadOutcome.exitInvalidPassword
    ∧ load_randomindex_lookup_structure mk2
        (Except.error (WalletError.cannotRetrievePrivateKey m))
        = LoadOutcome.exitCorruptKey m
    ∧ (LoadOutcome.exitInvalidPassword : LoadOutcome B).exitCode = some 1
    ∧ (LoadOutcome.exitCorruptKey m : LoadOutcome B).exitCode = some 1
    ∧ (LoadOutcome.exitInvalidPassword : LoadOutcome B).message
        ≠ (LoadOutcome.exitCorruptKey m : LoadOutcome B).message
    ∧ load_bip44_lookup_structure mk (Except.error e)
        = LoadOutcome.panicUnexpected e
    ∧ load_randomindex_lookup_structure mk2 (Except.error e)
        = LoadOutcome.panicUnexpected e
    ∧ (LoadOutcome.panicUnexpected e : LoadOutcome B).exitCode = none
    ∧ (LoadOutcome.panicUnexpected e : LoadOutcome B).message = none := by
  refine ⟨rfl, rfl, rfl, rfl, rfl, rfl, ?_, ?_, ?_, rfl, rfl⟩
  · simp only [LoadOutcome.message, Option.some_inj, ne_eq]
    intro h
    exact invalidPasswordMessage_ne_corruptKeyMessage m h
  · cases e with
    | walletLogAlreadyLocked q => rfl
    | cannotRetrievePrivateKeyInvalidPassword => exact absurd rfl he1
    | cannotRetrievePrivateKey m2 => exact absurd rfl (he2 m2)
    | other m2 => rfl
  · cases e with
    | walletLogAlreadyLocked q => rfl
    | cannotRetrievePrivateKeyInvalidPassword => exact absurd rfl he1
    | cannotRetrievePrivateKey m2 => exact absurd rfl (he2 m2)
    | other m2 => rfl

theorem credential_failures_distinguished_witness :
    load_bip44_lookup_structure (fun u : Unit => u)
        (Except.error WalletError.cannotRetrievePrivateKeyInvalidPassword)
        = LoadOutcome.exitInvalidPassword
    ∧ load_bip44_lookup_structure (fun u : Unit => u)
        (Except.error (WalletError.cannotRetrievePrivateKey "bad cbor"))
        = LoadOutcome.exitCorruptKey "bad cbor"
    ∧ load_randomindex_lookup_structure (fun u : Unit => u)
        (Except.error WalletError.cannotRetrievePrivateKeyInvalidPassword)
        = LoadOutcome.exitInvalidPassword
    ∧ load_randomindex_lookup_structure (fun u : Unit => u)
        (Except.error (WalletError.cannotRetrievePrivateKey "bad cbor"))
        = LoadOutcome.exitCorruptKey "bad cbor"
    ∧ (LoadOutcome.exitInvalidPassword : LoadOutcome Unit).exitCode = some 1
    ∧ (LoadOutcome.exitCorruptKey "bad cbor" : LoadOutcome Unit).exitCode = some 1
    ∧ (LoadOutcome.exitInvalidPassword : LoadOutcome Unit).message
        ≠ (LoadOutcome.exitCorruptKey "bad cbor" : LoadOutcome Unit).message
    ∧ load_bip44_lookup_structure (fun u : Unit => u)
        (Except.error (WalletError.other "io"))
        = LoadOutcome.panicUnexpected (WalletError.other "io")
    ∧ load_randomindex_lookup_structure (fun u : Unit => u)
        (Except.error (WalletError.other "io"))
        = LoadOutcome.panicUnexpected (WalletError.other "io")
    ∧ (LoadOutcome.panicUnexpected (WalletError.other "io") :
        LoadOutcome Unit).exitCode = none
    ∧ (LoadOutcome.panicUnexpected (WalletError.other "io") :
        LoadOutcome Unit).message = none :=
  credential_failures_distinguished Unit Unit Unit Unit
    (fun u => u) (fun u => u) "bad cbor" (WalletError.other "io")
    (by simp) (by simp)

/-- C8: the progress bar of a sync session has as its total length the
number of blocks between the cursor's last processed block date (genesis
when the cursor has none) and the blockchain tip's date, and it advances
exactly once per block consumed by the transaction iterator. -/
theorem progress_in_blocks (F : Forward σ A) (s : σ) (fromPtr : StatePtr)
    (tipDate : BlockDate) (blocks : List (Block A)) :
    (update_wallet_state_with_utxos F s fromPtr tipDate blocks).progressTotal
      = blockDateSub tipDate (fromPtr.latest_addr.getD (BlockDate.genesis 0))
    ∧ (update_wallet_state_with_utxos F s fromPtr tipDate blocks).progressTicks
      = blocks.length := by
  exact ⟨rfl, iterTransactions_ticks blocks⟩

/-- C9: each candidate UTxO entry handed to `forward_with_utxos` carries
the enclosing transaction's id, the output's zero-based position as its
index, and the output's address and value; over one transaction the indices
are pairwise distinct. -/
theorem utxo_candidates_wellformed (ptr : StatePtr) (tx : Tx A)
    (hlen : tx.outputs.length ≤ 2 ^ 32) :
    (mkUtxoCandidates ptr tx).length = tx.outputs.length
    ∧ (∀ i o, tx.outputs[i]? = some o →
        (mkUtxoCandidates ptr tx)[i]? =
          some (ptr,
            ({ transaction_id := tx.id
             , index_in_transaction := i
             , credited_address := o.address
             , credited_value := o.value } : UTxO A)))
    ∧ ((mkUtxoCandidates ptr tx).map
        (fun c => c.2.index_in_transaction)).Nodup := by
  refine ⟨?_, ?_, ?_⟩
  · simp [mkUtxoCandidates]
  · intro i o ho
    have hi : i < tx.outputs.length := by
      by_contra hge
      push_neg at hge
      rw [List.getElem?_eq_none hge] at ho
      cases ho
    have himod : i % 2 ^ 32 = i := Nat.mod_eq_of_lt (lt_of_lt_of_le hi hlen)
    simp [mkUtxoCandidates, List.getElem?_map, List.getElem?_enum, ho, himod]
    omega
  · have hmap : (mkUtxoCandidates ptr tx).map (fun c => c.2.index_in_transaction)
        = tx.outputs.enum.map (fun p => p.1 % 2 ^ 32) := by
      rw [mkUtxoCandidates, List.map_map]
      rfl
    have h2 : tx.outputs.enum.map (fun p => p.1 % 2 ^ 32)
        = (tx.outputs.enum.map Prod.fst).map (fun a => a % 2 ^ 32) := by
      rw [List.map_map]
      rfl
    have hrange : (List.range tx.outputs.length).map (fun a => a % 2 ^ 32)
        = (List.range tx.outputs.length).map (fun a => a) :=
      List.map_congr_left (fun a ha =>
        Nat.mod_eq_of_lt (lt_of_lt_of_le (List.mem_range.mp ha) hlen))
    rw [hmap, h2, List.enum_map_fst, hrange, List.map_id']
    exact List.nodup_range tx.outputs.length

theorem utxo_candidates_wellformed_witness :
    (mkUtxoCandidates { latest_known_hash := 5, latest_addr := none }
        ({ id := 9, inputs := [], outputs := [{ address := 3, value := 100 }, { address := 4, value := 0 }] } : Tx Nat)).length = 2
    ∧ (∀ i o,
        (({ id := 9, inputs := [], outputs := [{ address := 3, value := 100 }, { address := 4, value := 0 }] } : Tx Nat)).outputs[i]? = some o →
        (mkUtxoCandidates { latest_known_hash := 5, latest_addr := none }
          ({ id := 9, inputs := [], outputs := [{ address := 3, value := 100 }, { address := 4, value := 0 }] } : Tx Nat))[i]? =
          some ({ latest_known_hash := 5, latest_addr := none },
            ({ transaction_id := 9
             , index_in_transaction := i
             , credited_address := o.address
             , credited_value := o.value } : UTxO Nat)))
    ∧ ((mkUtxoCandidates { latest_known_hash := 5, latest_addr := none }
        ({ id := 9, inputs := [], outputs := [{ address := 3, value := 100 }, { address := 4, value := 0 }] } : Tx Nat)).map
        (fun c => c.2.index_in_transaction)).Nodup := by
  have h := utxo_candidates_wellformed
    { latest_known_hash := 5, latest_addr := none }
    ({ id := 9, inputs := [], outputs := [{ address := 3, value := 100 }, { address := 4, value := 0 }] } : Tx Nat)
    (by norm_num)
  exact ⟨h.1, h.2.1, h.2.2⟩

/-! ### Trace lemmas for the sync loop -/

theorem appendsOf_append (a b : List (Event A)) :
    appendsOf (a ++ b) = appendsOf a ++ appendsOf b := by
  simp [appendsOf]

theorem appendsOf_map_append (l : List (Log A)) :
    appendsOf (l.map Event.append) = l := by
  induction l with
  | nil => rfl
  | cons x xs ih =>
    simp only [List.map_cons, appendsOf, List.filterMap_cons] at ih ⊢
    simp [Event.appendedLog, ih]

theorem checkpointsOf_append (a b : List (Event A)) :
    checkpointsOf (a ++ b) = checkpointsOf a ++ checkpointsOf b := by
  simp [checkpointsOf, appendsOf_append]

theorem filterMap_appended (l : List (Log A)) :
    List.filterMap (Event.appendedLog ∘ Event.append) l = l := by
  induction l with
  | nil => rfl
  | cons x xs ih => simp [List.filterMap_cons, Function.comp, Event.appendedLog, ih]

theorem appendsOf_processTxEvents (F : Forward σ A) (s : σ) (last : BlockDate)
    (ptr : StatePtr) (tx : Tx A) :
    appendsOf (processTxEvents F s last ptr tx).events =
      appendsOf (checkpointEvents last ptr)
        ++ (F.txins s (tx.inputs.map (fun txin => (ptr, txin)))).2
        ++ (F.utxos (F.txins s (tx.inputs.map (fun txin => (ptr, txin)))).1
              (mkUtxoCandidates ptr tx)).2 := by
  simp [processTxEvents, appendsOf_append, appendsOf_map_append, appendsOf,
    Event.appendedLog, filterMap_appended]

theorem checkpointsOf_batch (l : List (Log A))
    (h : ∀ r ∈ l, r.isCheckpoint = false) :
    checkpointsOf ([Event.lock, Event.openWriter] ++ l.map Event.append)
      = [] := by
  simp only [checkpointsOf, appendsOf_append, appendsOf_map_append]
  simp only [appendsOf, List.filterMap_cons, Event.appendedLog,
    List.filterMap_nil, List.nil_append, List.filter_eq_nil_iff]
  intro r hr
  simp [h r hr]

theorem checkpointsOf_processTxEvents (F : Forward σ A)
    (hF : NoCheckpointForward F) (s : σ) (last : BlockDate)
    (ptr : StatePtr) (tx : Tx A) :
    checkpointsOf (processTxEvents F s last ptr tx).events
      = checkpointsOf (checkpointEvents last ptr : List (Event A)) := by
  have h1 : checkpointsOf
      ([Event.lock, Event.openWriter]
        ++ ((F.txins s (tx.inputs.map (fun txin => (ptr, txin)))).2.map
              Event.append)) = [] :=
    checkpointsOf_batch _ (fun r hr => hF.1 s _ r hr)
  have h2 : checkpointsOf
      ([Event.lock, Event.openWriter]
        ++ ((F.utxos (F.txins s (tx.inputs.map (fun txin => (ptr, txin)))).1
              (mkUtxoCandidates ptr tx)).2.map Event.append)) = [] :=
    checkpointsOf_batch _ (fun r hr => hF.2 _ _ r hr)
  simp only [processTxEvents, checkpointsOf_append, h1, h2, List.append_nil]

theorem opensLockedAux_mono (t : List (Event A))
    (h : opensLockedAux false t = true) (b : Bool) :
    opensLockedAux b t = true := by
  cases t with
  | nil => rfl
  | cons e rest =>
    cases e with
    | lock => exact h
    | openWriter => simp [opensLockedAux] at h
    | openReader => simp [opensLockedAux] at h
    | append r => exact h

theorem opensLockedAux_append (t1 t2 : List (Event A)) :
    ∀ b, opensLockedAux b t1 = true → opensLockedAux false t2 = true →
    opensLockedAux b (t1 ++ t2) = true := by
  induction t1 with
  | nil => exact fun b h1 h2 => opensLockedAux_mono t2 h2 b
  | cons e rest ih =>
    intro b h1 h2
    cases e with
    | lock => exact ih true h1 h2
    | openWriter =>
      simp only [opensLockedAux, Bool.and_eq_true] at h1
      simp only [List.cons_append, opensLockedAux, Bool.and_eq_true]
      exact ⟨h1.1, ih false h1.2 h2⟩
    | openReader =>
      simp only [opensLockedAux, Bool.and_eq_true] at h1
      simp only [List.cons_append, opensLockedAux, Bool.and_eq_true]
      exact ⟨h1.1, ih false h1.2 h2⟩
    | append r => exact ih false h1 h2

theorem opensLockedAux_map_append (l : List (Log A)) :
    ∀ b, opensLockedAux b (l.map Event.append) = true := by
  induction l with
  | nil => exact fun _ => rfl
  | cons x xs ih => exact fun _ => ih false

theorem opensLockedAux_batch (l : List (Log A)) (b : Bool) :
    opensLockedAux b ([Event.lock, Event.openWriter] ++ l.map Event.append)
      = true := by
  show (true && opensLockedAux false (l.map Event.append)) = true
  rw [Bool.true_and]
  exact opensLockedAux_map_append l false

theorem opensLockedAux_checkpointEvents (last : BlockDate) (ptr : StatePtr)
    (b : Bool) :
    opensLockedAux b (checkpointEvents last ptr : List (Event A)) = true := by
  rw [checkpointEvents]
  cases ptr.latest_addr with
  | none => rfl
  | some addr =>
    by_cases hc : last.get_epochid ≠ addr.get_epochid
    · simp only [if_pos hc]
      rfl
    · simp only [if_neg hc]
      rfl

theorem opensLockedAux_processTxEvents (F : Forward σ A) (s : σ)
    (last : BlockDate) (ptr : StatePtr) (tx : Tx A) (b : Bool) :
    opensLockedAux b (processTxEvents F s last ptr tx).events = true := by
  simp only [processTxEvents]
  exact opensLockedAux_append _ _ b
    (opensLockedAux_append _ _ b
      (opensLockedAux_checkpointEvents last ptr b)
      (opensLockedAux_batch _ false))
    (opensLockedAux_batch _ false)

theorem opensLockedAux_syncEvents (F : Forward σ A)
    (txs : List (StatePtr × Tx A)) :
    ∀ (s : σ) (last : BlockDate) (b : Bool),
    opensLockedAux b (syncEvents F s last txs).events = true := by
  induction txs with
  | nil => exact fun _ _ _ => rfl
  | cons pt rest ih =>
    intro s last b
    obtain ⟨ptr, tx⟩ := pt
    simp only [syncEvents]
    exact opensLockedAux_append _ _ b
      (opensLockedAux_processTxEvents F s last ptr tx b)
      (ih _ _ false)

theorem checkpointsOf_syncEvents_sameEpoch (F : Forward σ A)
    (hF : NoCheckpointForward F) :
    ∀ (txs : List (StatePtr × Tx A)) (s : σ) (last : BlockDate),
    (∀ pt ∈ txs,
      Option.all (fun e => e.get_epochid == last.get_epochid)
        pt.1.latest_addr = true) →
    checkpointsOf (syncEvents F s last txs).events = [] := by
  intro txs
  induction txs with
  | nil => intro s last _; rfl
  | cons pt rest ih =>
    intro s last h
    obtain ⟨ptr, tx⟩ := pt
    have hhead := h (ptr, tx) (List.mem_cons_self _ _)
    simp only [syncEvents, checkpointsOf_append]
    have hck : checkpointsOf (processTxEvents F s last ptr tx).events = [] := by
      rw [checkpointsOf_processTxEvents F hF]
      rw [checkpointEvents]
      cases haddr : ptr.latest_addr with
      | none => rfl
      | some addr =>
        have heq : addr.get_epochid = last.get_epochid := by
          rw [haddr] at hhead
          simpa [Option.all] using hhead
        simp [heq, checkpointsOf, appendsOf]
    rw [hck, List.nil_append]
    have hlast : (processTxEvents F s last ptr tx).last = nextLastDate last ptr :=
      rfl
    rw [hlast]
    cases haddr : ptr.latest_addr with
    | none =>
      rw [show nextLastDate last ptr = last from by
        rw [nextLastDate, haddr]; rfl]
      exact ih _ last (fun pt hpt => h pt (List.mem_cons_of_mem _ hpt))
    | some addr =>
      have heq : addr.get_epochid = last.get_epochid := by
        rw [haddr] at hhead
        simpa [Option.all] using hhead
      rw [show nextLastDate last ptr = addr from by
        rw [nextLastDate, haddr]; rfl]
      refine ih _ addr (fun pt hpt => ?_)
      have := h pt (List.mem_cons_of_mem _ hpt)
      cases hpt2 : pt.1.latest_addr with
      | none => simp [Option.all]
      | some e =>
        rw [hpt2] at this
        simp only [Option.all] at this ⊢
        rw [heq]
        exact this

theorem demoForward_noCheckpoint : NoCheckpointForward demoForward := by
  constructor
  · intro s args r hr
    simp only [demoForward, List.mem_map] at hr
    obtain ⟨pa, _, heq⟩ := hr
    rw [← heq]
    rfl
  · intro s args r hr
    simp only [demoForward, List.mem_map] at hr
    obtain ⟨pa, _, heq⟩ := hr
    rw [← heq]
    rfl

/-- C1: when a processed transaction's `StatePtr` carries a block date
whose epoch differs from the last seen block date's epoch, the `Checkpoint`
record for that `StatePtr` is appended strictly before every record emitted
for that transaction's inputs (`forward_with_txins`) and outputs
(`forward_with_utxos`). -/
theorem checkpoint_precedes_tx_records (F : Forward σ A) (s : σ)
    (last : BlockDate) (ptr : StatePtr) (tx : Tx A) (d : BlockDate)
    (hd : ptr.latest_addr = some d)
    (hne : last.get_epochid ≠ d.get_epochid) :
    appendsOf (processTxEvents F s last ptr tx).events =
      Log.checkpoint ptr
        :: ((F.txins s (tx.inputs.map (fun txin => (ptr, txin)))).2
            ++ (F.utxos (F.txins s (tx.inputs.map (fun txin => (ptr, txin)))).1
                  (mkUtxoCandidates ptr tx)).2) := by
  rw [appendsOf_processTxEvents]
  simp only [checkpointEvents, hd]
  rw [if_pos hne]
  simp [appendsOf, Event.appendedLog]

theorem checkpoint_precedes_tx_records_witness :
    appendsOf (processTxEvents demoForward () (BlockDate.genesis 0)
      { latest_known_hash := 1, latest_addr := some (BlockDate.normal 1 0) }
      { id := 3, inputs := [{ id := 2, index := 0 }], outputs := [{ address := 7, value := 50 }] }).events =
      Log.checkpoint { latest_known_hash := 1, latest_addr := some (BlockDate.normal 1 0) }
        :: ((demoForward.txins ()
              (({ id := 3, inputs := [{ id := 2, index := 0 }], outputs := [{ address := 7, value := 50 }] } : Tx Nat).inputs.map
                (fun txin => ({ latest_known_hash := 1, latest_addr := some (BlockDate.normal 1 0) }, txin)))).2
            ++ (demoForward.utxos
                  (demoForward.txins ()
                    (({ id := 3, inputs := [{ id := 2, index := 0 }], outputs := [{ address := 7, value := 50 }] } : Tx Nat).inputs.map
                      (fun txin => ({ latest_known_hash := 1, latest_addr := some (BlockDate.normal 1 0) }, txin)))).1
                  (mkUtxoCandidates
                    { latest_known_hash := 1, latest_addr := some (BlockDate.normal 1 0) }
                    { id := 3, inputs := [{ id := 2, index := 0 }], outputs := [{ address := 7, value := 50 }] })).2) :=
  checkpoint_precedes_tx_records demoForward () (BlockDate.genesis 0)
    { latest_known_hash := 1, latest_addr := some (BlockDate.normal 1 0) }
    { id := 3, inputs := [{ id := 2, index := 0 }], outputs := [{ address := 7, value := 50 }] }
    (BlockDate.normal 1 0) rfl (by decide)

/-- C2: for every transaction processed during synchronization, the records
emitted by `forward_with_txins` over its inputs are all appended (in
emission order) before the records emitted by `forward_with_utxos` over its
outputs, which are then appended in emission order, followed by the records
of the remaining transactions. -/
theorem txins_before_utxos_in_sync_trace (F : Forward σ A) (s : σ)
    (last : BlockDate) (ptr : StatePtr) (tx : Tx A)
    (rest : List (StatePtr × Tx A)) :
    appendsOf (syncEvents F s last ((ptr, tx) :: rest)).events =
      appendsOf (checkpointEvents last ptr)
        ++ (F.txins s (tx.inputs.map (fun txin => (ptr, txin)))).2
        ++ (F.utxos (F.txins s (tx.inputs.map (fun txin => (ptr, txin)))).1
              (mkUtxoCandidates ptr tx)).2
        ++ appendsOf (syncEvents F
              (F.utxos (F.txins s (tx.inputs.map (fun txin => (ptr, txin)))).1
                (mkUtxoCandidates ptr tx)).1
              (nextLastDate last ptr) rest).events := by
  simp only [syncEvents, appendsOf_append, appendsOf_processTxEvents]
  have hstate : (processTxEvents F s last ptr tx).state
      = (F.utxos (F.txins s (tx.inputs.map (fun txin => (ptr, txin)))).1
          (mkUtxoCandidates ptr tx)).1 := rfl
  have hlast : (processTxEvents F s last ptr tx).last = nextLastDate last ptr :=
    rfl
  rw [hstate, hlast, List.append_assoc, List.append_assoc]

/-- C3: within one synchronization session, once a `Checkpoint` is appended
for a transaction whose block date lies in a new epoch, no further
`Checkpoint` is appended while all subsequently processed transactions'
block dates remain in that epoch: the session's checkpoint records are
exactly that one record. -/
theorem at_most_one_checkpoint_per_epoch (F : Forward σ A)
    (hF : NoCheckpointForward F) (s : σ) (last : BlockDate)
    (ptr : StatePtr) (tx : Tx A) (rest : List (StatePtr × Tx A))
    (d : BlockDate)
    (hd : ptr.latest_addr = some d)
    (hne : last.get_epochid ≠ d.get_epochid)
    (hrest : ∀ pt ∈ rest,
      Option.all (fun e => e.get_epochid == d.get_epochid)
        pt.1.latest_addr = true) :
    checkpointsOf (syncEvents F s last ((ptr, tx) :: rest)).events
      = [Log.checkpoint ptr] := by
  simp only [syncEvents, checkpointsOf_append]
  have hck : checkpointsOf (processTxEvents F s last ptr tx).events
      = [Log.checkpoint ptr] := by
    rw [checkpointsOf_processTxEvents F hF]
    simp only [checkpointEvents, hd]
    rw [if_pos hne]
    simp [checkpointsOf, appendsOf, Event.appendedLog, Log.isCheckpoint]
  rw [hck]
  have hlast : (processTxEvents F s last ptr tx).last = nextLastDate last ptr :=
    rfl
  rw [hlast]
  rw [show nextLastDate last ptr = d from by rw [nextLastDate, hd]; rfl]
  rw [checkpointsOf_syncEvents_sameEpoch F hF rest _ d hrest]
  rfl

theorem at_most_one_checkpoint_per_epoch_witness :
    checkpointsOf (syncEvents demoForward () (BlockDate.genesis 0)
      [ ({ latest_known_hash := 1, latest_addr := some (BlockDate.normal 1 0) },
         { id := 3, inputs := [{ id := 2, index := 0 }], outputs := [{ address := 7, value := 50 }] })
      , ({ latest_known_hash := 2, latest_addr := some (BlockDate.normal 1 5) },
         ({ id := 4, inputs := [], outputs := [{ address := 8, value := 20 }] } : Tx Nat))
      , ({ latest_known_hash := 3, latest_addr := none },
         { id := 5, inputs := [], outputs := [] }) ]).events
      = [Log.checkpoint { latest_known_hash := 1, latest_addr := some (BlockDate.normal 1 0) }] :=
  at_most_one_checkpoint_per_epoch demoForward demoForward_noCheckpoint ()
    (BlockDate.genesis 0)
    { latest_known_hash := 1, latest_addr := some (BlockDate.normal 1 0) }
    { id := 3, inputs := [{ id := 2, index := 0 }], outputs := [{ address := 7, value := 50 }] }
    [ ({ latest_known_hash := 2, latest_addr := some (BlockDate.normal 1 5) },
       ({ id := 4, inputs := [], outputs := [{ address := 8, value := 20 }] } : Tx Nat))
    , ({ latest_known_hash := 3, latest_addr := none },
       { id := 5, inputs := [], outputs := [] }) ]
    (BlockDate.normal 1 0) rfl (by decide) (by decide)

/-- C4: every log writer and log reader opened by this module is opened
immediately after taking the wallet's log lock: this holds for the whole
event trace of a sync session, of the log display, and of the log
replay. -/
theorem opens_under_lock (F : Forward σ A) (s : σ) (fromPtr : StatePtr)
    (tipDate : BlockDate) (blocks : List (Block A))
    (upd : σ → Log A → σ) (raw : List (Except E (Log A))) :
    opensLocked (update_wallet_state_with_utxos F s fromPtr tipDate blocks).events = true
    ∧ opensLocked (display_wallet_state_logs raw :
        DisplayRun A E).events = true
    ∧ opensLocked (update_wallet_state_with_logs upd s raw).events = true := by
  refine ⟨?_, rfl, rfl⟩
  exact opensLockedAux_syncEvents F _ s _ false

/-- C10: a transaction whose `StatePtr` carries no block date triggers no
`Checkpoint` record and leaves the last seen block date (used for the epoch
comparison) unchanged. -/
theorem undated_tx_no_checkpoint (F : Forward σ A)
    (hF : NoCheckpointForward F) (s : σ) (last : BlockDate)
    (ptr : StatePtr) (tx : Tx A)
    (h : ptr.latest_addr = none) :
    (processTxEvents F s last ptr tx).last = last
    ∧ checkpointsOf (processTxEvents F s last ptr tx).events = [] := by
  constructor
  · show nextLastDate last ptr = last
    rw [nextLastDate, h]
    rfl
  · rw [checkpointsOf_processTxEvents F hF]
    rw [checkpointEvents, h]
    rfl

theorem undated_tx_no_checkpoint_witness :
    (processTxEvents demoForward () (BlockDate.genesis 0)
      { latest_known_hash := 4, latest_addr := none }
      ({ id := 6, inputs := [{ id := 1, index := 1 }], outputs := [{ address := 9, value := 10 }] } : Tx Nat)).last
      = BlockDate.genesis 0
    ∧ checkpointsOf (processTxEvents demoForward () (BlockDate.genesis 0)
        { latest_known_hash := 4, latest_addr := none }
        ({ id := 6, inputs := [{ id := 1, index := 1 }], outputs := [{ address := 9, value := 10 }] } : Tx Nat)).events
      = [] :=
  undated_tx_no_checkpoint demoForward demoForward_noCheckpoint ()
    (BlockDate.genesis 0)
    { latest_known_hash := 4, latest_addr := none }
    ({ id := 6, inputs := [{ id := 1, index := 1 }], outputs := [{ address := 9, value := 10 }] } : Tx Nat)
    rfl
